import Mathlib

/-!
Verification development for the knowledge-graph store of `genkitx-memory`
(`src/graph.ts`, `src/types.ts`).

The data model and every engine operation are shallowly embedded as pure
Lean functions.  TypeScript arrays become `List`, in-place mutation becomes
explicit state passing, and a thrown exception becomes `Except.error`.
JavaScript strings are modelled as Lean `String` (sequences of Unicode
scalar values); `toLowerCase` and `includes` are modelled character-wise
(`jsToLowerCase`, `jsIncludes`), which agrees with the JavaScript behaviour
on all inputs free of surrogate-pair edge cases.

The persistence layer (`FileGraphStore`) is embedded over file contents
represented as `List Char`: `saveGraphContent` produces exactly the
newline-delimited JSON text `saveGraph` writes, and `loadLines` mirrors
`loadGraph`'s split / blank-filter / `JSON.parse` / dispatch pipeline, with
the parser specialised to the compact record grammar this store emits.
File-system outcomes are passed in explicitly (`FsError`), so the
`try`/`catch` dispatch of `loadGraph` is a total function of the read
result.
-/

/-- Entity record of the knowledge graph (`EntitySchema` in `src/types.ts`):
a unique `name`, a free-form `entityType`, and an ordered list of
observation strings. -/
structure Entity where
  name : String
  entityType : String
  observations : List String
deriving Repr, DecidableEq

/-- Relationship record (`RelationshipSchema` in `src/types.ts`): a directed,
typed edge referencing entities by name. -/
structure Relationship where
  «from» : String
  «to» : String
  relationshipType : String
deriving Repr, DecidableEq

/-- Identity of a relationship: the `(from, to, relationshipType)` triple
(spec section 3; the source compares the three fields pointwise). -/
def relTriple (r : Relationship) : String × String × String :=
  (r.«from», r.«to», r.relationshipType)

/-- The whole persisted state (`KnowledgeGraphSchema` in `src/types.ts`). -/
structure KnowledgeGraph where
  entities : List Entity
  relationships : List Relationship
deriving Repr, DecidableEq

/-- Input entry of `addObservations` (`ObservationSchema` in `src/types.ts`). -/
structure Observation where
  entityName : String
  contents : List String
deriving Repr, DecidableEq

/-- Per-entry result of `addObservations` (`AddedObservationResult` in
`src/types.ts`). -/
structure AddedObservationResult where
  entityName : String
  addedObservations : List String
deriving Repr, DecidableEq

/-- Input entry of `deleteObservations` (`DeletedObservation` in
`src/types.ts`). -/
structure DeletedObservation where
  entityName : String
  observations : List String
deriving Repr, DecidableEq

namespace Graph

/-- Model of `Graph._withGraphPersistence`: load the stored graph, run the
modifier, and save the modified graph.  When the modifier throws
(`Except.error`), the `saveGraph` call is never reached, so the stored
graph is unchanged. -/
def withGraphPersistence {T : Type} (stored : KnowledgeGraph)
    (modifier : KnowledgeGraph → Except String (T × KnowledgeGraph)) :
    Except String T × KnowledgeGraph :=
  match modifier stored with
  | Except.ok (result, g) => (Except.ok result, g)
  | Except.error e => (Except.error e, stored)

/-- Model of `Graph.createEntities`: keep only the input entities whose name
does not occur among the stored entities, push them onto the entity array,
and return them. -/
def createEntities (g : KnowledgeGraph) (entities : List Entity) :
    List Entity × KnowledgeGraph :=
  let newEntities := entities.filter (fun e =>
    !(g.entities.any (fun existingEntity => existingEntity.name == e.name)))
  (newEntities, { g with entities := g.entities ++ newEntities })

/-- Model of `Graph.createRelationships`: keep only the input relationships
whose `(from, to, relationshipType)` triple does not occur among the stored
relationships, push them onto the relationship array, and return them. -/
def createRelationships (g : KnowledgeGraph) (relationships : List Relationship) :
    List Relationship × KnowledgeGraph :=
  let newRelationships := relationships.filter (fun r =>
    !(g.relationships.any (fun existingRelationship =>
      existingRelationship.«from» == r.«from» &&
      existingRelationship.«to» == r.«to» &&
      existingRelationship.relationshipType == r.relationshipType)))
  (newRelationships, { g with relationships := g.relationships ++ newRelationships })

/-- In-place `entity.observations.push(...newObservations)` on the first
entity found by `graph.entities.find((e) => e.name === o.entityName)`. -/
def pushObservationsFirstMatch : List Entity → String → List String → List Entity
  | [], _, _ => []
  | e :: rest, entityName, newObs =>
    if e.name == entityName then
      { e with observations := e.observations ++ newObs } :: rest
    else
      e :: pushObservationsFirstMatch rest entityName newObs

/-- One iteration of the `observations.map` loop in `Graph.addObservations`:
find the entity (throw if absent), filter the contents already present,
push the remainder onto the entity in place. -/
def addObservationsStep (g : KnowledgeGraph) (o : Observation) :
    Except String (AddedObservationResult × KnowledgeGraph) :=
  match g.entities.find? (fun e => e.name == o.entityName) with
  | none => Except.error ("Entity with name " ++ o.entityName ++ " not found")
  | some entity =>
    let newObservations := o.contents.filter (fun content =>
      !(entity.observations.contains content))
    Except.ok
      ({ entityName := o.entityName, addedObservations := newObservations },
       { g with
          entities := pushObservationsFirstMatch g.entities o.entityName newObservations })

/-- The whole `observations.map` loop of `Graph.addObservations`, threading
the in-memory graph through the sequentially processed entries and
propagating the first thrown error. -/
def addObservationsLoop (g : KnowledgeGraph) :
    List Observation → Except String (List AddedObservationResult × KnowledgeGraph)
  | [] => Except.ok ([], g)
  | o :: rest =>
    match addObservationsStep g o with
    | Except.error e => Except.error e
    | Except.ok (r, g') =>
      match addObservationsLoop g' rest with
      | Except.error e => Except.error e
      | Except.ok (rs, g'') => Except.ok (r :: rs, g'')

/-- Model of `Graph.addObservations` at the level of the persisted store:
the first component is the call's outcome, the second is the stored graph
afterwards (unchanged when the call throws, because the throw happens
before `saveGraph`). -/
def addObservations (g : KnowledgeGraph) (observations : List Observation) :
    Except String (List AddedObservationResult) × KnowledgeGraph :=
  withGraphPersistence g (fun graph => addObservationsLoop graph observations)

/-- Model of `Graph.deleteEntities`: drop every entity whose name is in the
list, and every relationship whose `from` or `to` is in the list. -/
def deleteEntities (g : KnowledgeGraph) (entityNames : List String) : KnowledgeGraph :=
  { entities := g.entities.filter (fun e => !(entityNames.contains e.name)),
    relationships := g.relationships.filter (fun r =>
      !(entityNames.contains r.«from») && !(entityNames.contains r.«to»)) }

/-- In-place `entity.observations = entity.observations.filter(...)` on the
first entity found by `graph.entities.find((e) => e.name === d.entityName)`;
no effect when no entity matches. -/
def filterObservationsFirstMatch : List Entity → DeletedObservation → List Entity
  | [], _ => []
  | e :: rest, d =>
    if e.name == d.entityName then
      { e with observations :=
          e.observations.filter (fun o => !(d.observations.contains o)) } :: rest
    else
      e :: filterObservationsFirstMatch rest d

/-- Model of `Graph.deleteObservations`: process the deletion entries in
order, each one filtering the observations of its (first) matching entity,
silently skipping entries whose entity does not exist. -/
def deleteObservations (g : KnowledgeGraph) (deletions : List DeletedObservation) :
    KnowledgeGraph :=
  { g with entities := deletions.foldl filterObservationsFirstMatch g.entities }

/-- Model of `Graph.deleteRelationships`: keep only the stored relationships
matching none of the given triples. -/
def deleteRelationships (g : KnowledgeGraph) (relationships : List Relationship) :
    KnowledgeGraph :=
  { g with relationships := g.relationships.filter (fun r =>
      !(relationships.any (fun delRelationship =>
        r.«from» == delRelationship.«from» &&
        r.«to» == delRelationship.«to» &&
        delRelationship.relationshipType == r.relationshipType))) }

/-- Model of `Graph.readGraph`: return the loaded graph unfiltered. -/
def readGraph (g : KnowledgeGraph) : KnowledgeGraph := g

/-- Model of `Graph._filterGraph`: the filtered entities, plus every
relationship with at least one endpoint among the filtered entity names. -/
def filterGraph (g : KnowledgeGraph) (entityFilter : Entity → Bool) : KnowledgeGraph :=
  let filteredEntities := g.entities.filter entityFilter
  let filteredEntityNames := filteredEntities.map (fun entity => entity.name)
  { entities := filteredEntities,
    relationships := g.relationships.filter (fun relationship =>
      filteredEntityNames.contains relationship.«from» ||
      filteredEntityNames.contains relationship.«to») }

/-- Character-wise model of JavaScript `String.prototype.toLowerCase`. -/
def jsToLowerCase (s : String) : String := String.mk (s.data.map Char.toLower)

/-- Model of JavaScript `String.prototype.includes` on character lists:
`searched` occurs as a contiguous run of `s` (at any position, including
the end, so the empty needle always matches). -/
def jsIncludes : List Char → List Char → Bool
  | [], searched => searched.isPrefixOf []
  | s@(_ :: t), searched => searched.isPrefixOf s || jsIncludes t searched

/-- String-level wrapper of `jsIncludes`. -/
def jsIncludesStr (s searched : String) : Bool := jsIncludes s.data searched.data

/-- The entity predicate of `Graph.searchNodes`: the lowercased query occurs
in the lowercased name, the lowercased entity type, or some lowercased
observation. -/
def searchMatches (entity : Entity) (lowerCaseQuery : String) : Bool :=
  jsIncludesStr (jsToLowerCase entity.name) lowerCaseQuery ||
  jsIncludesStr (jsToLowerCase entity.entityType) lowerCaseQuery ||
  entity.observations.any (fun observation =>
    jsIncludesStr (jsToLowerCase observation) lowerCaseQuery)

/-- Model of `Graph.searchNodes`: filter the graph by the case-insensitive
substring predicate over name, type, and observations. -/
def searchNodes (g : KnowledgeGraph) (query : String) : KnowledgeGraph :=
  let lowerCaseQuery := jsToLowerCase query
  filterGraph g (fun entity => searchMatches entity lowerCaseQuery)

/-- Model of `Graph.openNodes`: filter the graph by exact-name membership in
the given list. -/
def openNodes (g : KnowledgeGraph) (names : List String) : KnowledgeGraph :=
  filterGraph g (fun entity => names.contains entity.name)

end Graph

namespace FileGraphStore

/-- Lowercase hexadecimal digit, as produced by the `UnicodeEscape` routine
of ECMA-262. -/
def hexDigit (n : Nat) : Char :=
  if n < 10 then Char.ofNat (48 + n) else Char.ofNat (87 + n)

/-- JSON.stringify escaping of one character (ECMA-262 `QuoteJSONString`):
quote and backslash get a backslash escape, the control characters with
short escapes use them, the remaining control characters use a four-digit
lowercase unicode escape, and every other character stands for itself. -/
def escapeChar (c : Char) : List Char :=
  if c = '"' then ['\\', '"']
  else if c = '\\' then ['\\', '\\']
  else if c = '\x08' then ['\\', 'b']
  else if c = '\t' then ['\\', 't']
  else if c = '\n' then ['\\', 'n']
  else if c = '\x0c' then ['\\', 'f']
  else if c = '\r' then ['\\', 'r']
  else if c.toNat < 32 then
    ['\\', 'u', '0', '0', hexDigit (c.toNat / 16), hexDigit (c.toNat % 16)]
  else [c]

/-- The escaped body of a JSON string literal. -/
def escapeList (s : List Char) : List Char := (s.map escapeChar).flatten

/-- A complete JSON string literal for `s`. -/
def quoteJson (s : String) : List Char := '"' :: escapeList s.data ++ ['"']

/-- Separator-joined concatenation, as `Array.prototype.join`. -/
def joinWith (sep : Char) : List (List Char) → List Char
  | [] => []
  | [l] => l
  | l :: ls => l ++ sep :: joinWith sep ls

/-- JSON.stringify of an array of strings (compact form, no spaces). -/
def encodeStringArray (l : List String) : List Char :=
  '[' :: joinWith ',' (l.map quoteJson) ++ [']']

/-- The literal text `\x7b"type":"entity","name":"` opening an entity
record. -/
def entityLit1 : List Char :=
  ['{', '"', 't', 'y', 'p', 'e', '"', ':', '"', 'e', 'n', 't', 'i', 't', 'y', '"', ',',
   '"', 'n', 'a', 'm', 'e', '"', ':', '"']

/-- The literal text `,"entityType":"` between the name and type values. -/
def entityLit2 : List Char :=
  [',', '"', 'e', 'n', 't', 'i', 't', 'y', 'T', 'y', 'p', 'e', '"', ':', '"']

/-- The literal text `,"observations":` before the observations array. -/
def entityLit3 : List Char :=
  [',', '"', 'o', 'b', 's', 'e', 'r', 'v', 'a', 't', 'i', 'o', 'n', 's', '"', ':']

/-- The literal text `\x7b"type":"relationship","from":"` opening a
relationship record. -/
def relLit1 : List Char :=
  ['{', '"', 't', 'y', 'p', 'e', '"', ':', '"', 'r', 'e', 'l', 'a', 't', 'i', 'o', 'n',
   's', 'h', 'i', 'p', '"', ',', '"', 'f', 'r', 'o', 'm', '"', ':', '"']

/-- The literal text `,"to":"` between the from and to values. -/
def relLit2 : List Char :=
  [',', '"', 't', 'o', '"', ':', '"']

/-- The literal text `,"relationshipType":"` before the type value. -/
def relLit3 : List Char :=
  [',', '"', 'r', 'e', 'l', 'a', 't', 'i', 'o', 'n', 's', 'h', 'i', 'p', 'T', 'y',
   'p', 'e', '"', ':', '"']

/-- The line `JSON.stringify(\x7b type: 'entity', ...e \x7d)` with the key
order produced by the zod schema (`name`, `entityType`, `observations`). -/
def encodeEntityLine (e : Entity) : List Char :=
  entityLit1 ++ escapeList e.name.data ++ '"' :: entityLit2 ++
    escapeList e.entityType.data ++ '"' :: entityLit3 ++
    encodeStringArray e.observations ++ ['}']

/-- The line `JSON.stringify(\x7b type: 'relationship', ...r \x7d)` with the
key order produced by the zod schema (`from`, `to`, `relationshipType`). -/
def encodeRelationshipLine (r : Relationship) : List Char :=
  relLit1 ++ escapeList r.«from».data ++ '"' :: relLit2 ++
    escapeList r.«to».data ++ '"' :: relLit3 ++
    escapeList r.relationshipType.data ++ '"' :: ['}']

/-- Model of `FileGraphStore.saveGraph`'s file content: one JSON line per
entity, then one per relationship, joined with newlines. -/
def saveGraphContent (g : KnowledgeGraph) : List Char :=
  joinWith '\n'
    (g.entities.map encodeEntityLine ++ g.relationships.map encodeRelationshipLine)

/-- Model of `fileContent.split('\n')` (always at least one, possibly
empty, field). -/
def splitOnNewline : List Char → List (List Char)
  | [] => [[]]
  | c :: rest =>
    if c = '\n' then [] :: splitOnNewline rest
    else
      match splitOnNewline rest with
      | [] => [[c]]
      | l :: ls => (c :: l) :: ls

/-- The `WhiteSpace` and `LineTerminator` characters removed by JavaScript
`String.prototype.trim`. -/
def jsIsWhitespaceChar (c : Char) : Bool :=
  c = '\t' || c = '\n' || c = '\x0b' || c = '\x0c' || c = '\r' || c = ' ' ||
  c = '\u00a0' || c = '\u1680' || ('\u2000' ≤ c && c ≤ '\u200a') ||
  c = '\u2028' || c = '\u2029' || c = '\u202f' || c = '\u205f' || c = '\u3000' ||
  c = '\ufeff'

/-- Model of `line.trim()`. -/
def jsTrim (l : List Char) : List Char :=
  ((l.dropWhile jsIsWhitespaceChar).reverse.dropWhile jsIsWhitespaceChar).reverse

/-- A parsed line of the persisted file: the `type` discriminator selects
which array of the loaded graph the record joins. -/
inductive LineItem where
  | entity (e : Entity)
  | relationship (r : Relationship)
deriving Repr, DecidableEq

/-- Value of one hexadecimal digit (JSON.parse accepts both cases). -/
def hexVal (c : Char) : Option Nat :=
  if '0' ≤ c ∧ c ≤ '9' then some (c.toNat - 48)
  else if 'a' ≤ c ∧ c ≤ 'f' then some (c.toNat - 87)
  else if 'A' ≤ c ∧ c ≤ 'F' then some (c.toNat - 55)
  else none

/-- JSON string-literal body parser (position just after the opening quote,
accumulating decoded characters in reverse): consumes the body and the
closing quote.  Models `JSON.parse` string handling; raw control
characters are a syntax error. -/
def parseStringAux : List Char → List Char → Option (String × List Char)
  | [], _ => none
  | '"' :: rest, cur => some (String.mk cur.reverse, rest)
  | '\\' :: rest, cur =>
    match rest with
    | '"' :: r => parseStringAux r ('"' :: cur)
    | '\\' :: r => parseStringAux r ('\\' :: cur)
    | '/' :: r => parseStringAux r ('/' :: cur)
    | 'b' :: r => parseStringAux r ('\x08' :: cur)
    | 'f' :: r => parseStringAux r ('\x0c' :: cur)
    | 'n' :: r => parseStringAux r ('\n' :: cur)
    | 'r' :: r => parseStringAux r ('\r' :: cur)
    | 't' :: r => parseStringAux r ('\t' :: cur)
    | 'u' :: h1 :: h2 :: h3 :: h4 :: r =>
      match hexVal h1, hexVal h2, hexVal h3, hexVal h4 with
      | some n1, some n2, some n3, some n4 =>
        parseStringAux r (Char.ofNat (4096 * n1 + 256 * n2 + 16 * n3 + n4) :: cur)
      | _, _, _, _ => none
    | _ => none
  | c :: rest, cur =>
    if c.toNat < 32 then none else parseStringAux rest (c :: cur)

/-- Parser for the elements of a compact JSON string array, positioned
inside the current string element (after its opening quote), accumulating
the current element's characters and the completed elements in reverse. -/
def parseArrayAux : List Char → List Char → List String → Option (List String × List Char)
  | [], _, _ => none
  | '"' :: rest, cur, acc =>
    match rest with
    | ',' :: '"' :: rest2 => parseArrayAux rest2 [] (String.mk cur.reverse :: acc)
    | ']' :: rest2 => some ((String.mk cur.reverse :: acc).reverse, rest2)
    | _ => none
  | '\\' :: rest, cur, acc =>
    match rest with
    | '"' :: r => parseArrayAux r ('"' :: cur) acc
    | '\\' :: r => parseArrayAux r ('\\' :: cur) acc
    | '/' :: r => parseArrayAux r ('/' :: cur) acc
    | 'b' :: r => parseArrayAux r ('\x08' :: cur) acc
    | 'f' :: r => parseArrayAux r ('\x0c' :: cur) acc
    | 'n' :: r => parseArrayAux r ('\n' :: cur) acc
    | 'r' :: r => parseArrayAux r ('\r' :: cur) acc
    | 't' :: r => parseArrayAux r ('\t' :: cur) acc
    | 'u' :: h1 :: h2 :: h3 :: h4 :: r =>
      match hexVal h1, hexVal h2, hexVal h3, hexVal h4 with
      | some n1, some n2, some n3, some n4 =>
        parseArrayAux r (Char.ofNat (4096 * n1 + 256 * n2 + 16 * n3 + n4) :: cur) acc
      | _, _, _, _ => none
    | _ => none
  | c :: rest, cur, acc =>
    if c.toNat < 32 then none else parseArrayAux rest (c :: cur) acc

/-- Parser for a compact JSON array of strings. -/
def parseStringArray : List Char → Option (List String × List Char)
  | '[' :: ']' :: rest => some ([], rest)
  | '[' :: '"' :: rest => parseArrayAux rest [] []
  | _ => none

/-- Consume an expected literal prefix. -/
def dropLit : List Char → List Char → Option (List Char)
  | [], input => some input
  | _ :: _, [] => none
  | c :: cs, x :: xs => if x = c then dropLit cs xs else none

/-- Model of `JSON.parse(line)` followed by the `item.type` dispatch of
`loadGraph`, specialised to the compact record grammar this store emits
(`JSON.parse` is more permissive — whitespace, reordered keys, or records
of other types — but `loadGraph` only ever meets lines written by
`saveGraph`, which take exactly this shape). -/
def parseLine (line : List Char) : Option LineItem :=
  match dropLit entityLit1 line with
  | some rest1 =>
    match parseStringAux rest1 [] with
    | none => none
    | some (nm, rest2) =>
      match dropLit entityLit2 rest2 with
      | none => none
      | some rest3 =>
        match parseStringAux rest3 [] with
        | none => none
        | some (et, rest4) =>
          match dropLit entityLit3 rest4 with
          | none => none
          | some rest5 =>
            match parseStringArray rest5 with
            | none => none
            | some (obs, rest6) =>
              match rest6 with
              | ['}'] =>
                some (LineItem.entity { name := nm, entityType := et, observations := obs })
              | _ => none
  | none =>
    match dropLit relLit1 line with
    | none => none
    | some rest1 =>
      match parseStringAux rest1 [] with
      | none => none
      | some (f, rest2) =>
        match dropLit relLit2 rest2 with
        | none => none
        | some rest3 =>
          match parseStringAux rest3 [] with
          | none => none
          | some (t, rest4) =>
            match dropLit relLit3 rest4 with
            | none => none
            | some rest5 =>
              match parseStringAux rest5 [] with
              | none => none
              | some (rt, rest6) =>
                match rest6 with
                | ['}'] =>
                  some (LineItem.relationship
                    { «from» := f, «to» := t, relationshipType := rt })
                | _ => none

/-- The record-dispatch loop of `loadGraph`: push each parsed entity or
relationship onto the graph being built, propagating a parse failure. -/
def loadLines : List (List Char) → KnowledgeGraph → Option KnowledgeGraph
  | [], g => some g
  | line :: rest, g =>
    match parseLine line with
    | none => none
    | some (LineItem.entity e) => loadLines rest { g with entities := g.entities ++ [e] }
    | some (LineItem.relationship r) =>
      loadLines rest { g with relationships := g.relationships ++ [r] }

/-- Model of the body of `FileGraphStore.loadGraph` applied to a
successfully read file content: split on newlines, drop lines that trim to
nothing, parse and dispatch each remaining line. -/
def loadGraphFromContent (content : List Char) : Option KnowledgeGraph :=
  loadLines ((splitOnNewline content).filter (fun line => !(jsTrim line).isEmpty))
    { entities := [], relationships := [] }

/-- Outcome of a file-system primitive: the distinguished `ENOENT`
(file-does-not-exist) code, or any other error. -/
inductive FsError where
  | enoent
  | other (message : String)
deriving Repr, DecidableEq

/-- Model of `FileGraphStore.loadGraph` as a function of the `readFile`
outcome: `ENOENT` is caught and yields the empty graph, any other read
error is rethrown, and a content that fails to parse rethrows the
`JSON.parse` error (the `catch` only handles `ENOENT`). -/
def loadGraph (readResult : Except FsError (List Char)) : Except FsError KnowledgeGraph :=
  match readResult with
  | Except.error FsError.enoent => Except.ok { entities := [], relationships := [] }
  | Except.error e => Except.error e
  | Except.ok content =>
    match loadGraphFromContent content with
    | some g => Except.ok g
    | none => Except.error (FsError.other "SyntaxError")

/-- Model of `FileGraphStore.saveGraph` as a function of the `writeFile`
primitive: serialise and write, with no error handling of its own. -/
def saveGraph (writeFile : List Char → Except FsError Unit) (g : KnowledgeGraph) :
    Except FsError Unit :=
  writeFile (saveGraphContent g)

end FileGraphStore

/-- The entity-selection predicate of C7 in its specification form: the
lowercased query is a contiguous substring of the lowercased name, the
lowercased entity type, or some lowercased observation. -/
def entityMatchesQuery (e : Entity) (q : String) : Prop :=
  (Graph.jsToLowerCase q).data <:+: (Graph.jsToLowerCase e.name).data ∨
  (Graph.jsToLowerCase q).data <:+: (Graph.jsToLowerCase e.entityType).data ∨
  ∃ ob ∈ e.observations, (Graph.jsToLowerCase q).data <:+: (Graph.jsToLowerCase ob).data

instance (e : Entity) (q : String) : Decidable (entityMatchesQuery e q) := by
  unfold entityMatchesQuery
  infer_instance

/-- Data-model invariant (spec section 3): at most one entity per distinct
name. -/
def UniqueEntityNames (g : KnowledgeGraph) : Prop :=
  (g.entities.map (fun e => e.name)).Nodup

/-- Data-model invariant (spec section 3): no two stored relationships share
the same `(from, to, relationshipType)` triple. -/
def UniqueRelationshipTriples (g : KnowledgeGraph) : Prop :=
  (g.relationships.map relTriple).Nodup

/-- Both data-model invariants together. -/
def GraphInvariants (g : KnowledgeGraph) : Prop :=
  UniqueEntityNames g ∧ UniqueRelationshipTriples g

instance (g : KnowledgeGraph) : Decidable (UniqueEntityNames g) := by
  unfold UniqueEntityNames
  infer_instance

instance (g : KnowledgeGraph) : Decidable (UniqueRelationshipTriples g) := by
  unfold UniqueRelationshipTriples
  infer_instance

instance (g : KnowledgeGraph) : Decidable (GraphInvariants g) := by
  unfold GraphInvariants
  exact instDecidableAnd

section BridgingLemmas

/-- A boolean equals the decision of a proposition as soon as its truth is
equivalent to that proposition. -/
theorem eq_decide_of_iff {p : Prop} [Decidable p] {b : Bool} (h : b = true ↔ p) :
    b = decide p := by
  by_cases hp : p
  · rw [decide_eq_true hp, h.mpr hp]
  · rw [decide_eq_false hp]
    cases hb : b
    · rfl
    · exact absurd (h.mp hb) hp

/-- The negated `Array.includes` test of the source equals the decision of
non-membership. -/
theorem not_contains_decide (l : List String) (a : String) :
    (!(l.contains a)) = decide (a ∉ l) := by
  by_cases h : a ∈ l <;> simp [h]

/-- The negated `Array.some` name test of `createEntities` equals the
decision that the name occurs nowhere in the list. -/
theorem not_any_name_decide (es : List Entity) (nm : String) :
    (!(es.any (fun ex => ex.name == nm))) = decide (∀ ex ∈ es, ex.name ≠ nm) := by
  apply eq_decide_of_iff
  simp [List.any_eq_true]

end BridgingLemmas

section SanityChecks

example :
    Graph.createEntities { entities := [], relationships := [] }
      [{ name := "A", entityType := "T", observations := [] }] =
    ([{ name := "A", entityType := "T", observations := [] }],
     { entities := [{ name := "A", entityType := "T", observations := [] }],
       relationships := [] }) := by decide

example :
    Graph.searchNodes
      { entities := [{ name := "Apple", entityType := "Fruit", observations := ["Red"] }],
        relationships := [{ «from» := "Apple", «to» := "Banana", relationshipType := "C" }] }
      "fruit" =
    { entities := [{ name := "Apple", entityType := "Fruit", observations := ["Red"] }],
      relationships := [{ «from» := "Apple", «to» := "Banana", relationshipType := "C" }] } := by
  decide

example :
    (Graph.addObservations
      { entities := [{ name := "A", entityType := "T", observations := [] }],
        relationships := [] }
      [{ entityName := "A", contents := ["x"] },
       { entityName := "B", contents := ["y"] }]).2 =
    { entities := [{ name := "A", entityType := "T", observations := [] }],
      relationships := [] } := by decide

end SanityChecks

section ClaimC4

/-- C4: `createEntities` returns exactly the sub-list of input entities whose
name does not occur in the loaded graph, appends exactly that sub-list to
the graph's entity sequence in input order (relationships untouched), and
deduplicates only against existing graph state, not within the batch: an
input batch containing the same new name twice gets that entity appended
twice. -/
theorem createEntities_correct (g : KnowledgeGraph) (es : List Entity) :
    (Graph.createEntities g es).1 =
      es.filter (fun e => decide (∀ ex ∈ g.entities, ex.name ≠ e.name)) ∧
    (Graph.createEntities g es).2.entities =
      g.entities ++ (Graph.createEntities g es).1 ∧
    (Graph.createEntities g es).2.relationships = g.relationships ∧
    (∀ e : Entity, (∀ ex ∈ g.entities, ex.name ≠ e.name) →
      (Graph.createEntities g [e, e]).1 = [e, e] ∧
      (Graph.createEntities g [e, e]).2.entities = g.entities ++ [e, e]) := by
  refine ⟨?_, rfl, rfl, ?_⟩
  · exact List.filter_congr (fun x _ => not_any_name_decide g.entities x.name)
  · intro e he
    have hf : (g.entities.any (fun ex => ex.name == e.name)) = false := by
      simp only [List.any_eq_false]
      intro x hx
      simp [he x hx]
    constructor
    · simp [Graph.createEntities, List.filter, hf]
    · simp [Graph.createEntities, List.filter, hf]

end ClaimC4

section ClaimC5

/-- C5: `deleteEntities` removes exactly the entities whose name is in the
list and exactly the relationships in which `from` or `to` equals any name
in the list (a relationship survives if and only if neither endpoint is a
listed name); being a total function of the graph and the list, it never
raises an error when a listed name has no matching entity. -/
theorem deleteEntities_correct (g : KnowledgeGraph) (entityNames : List String) :
    (Graph.deleteEntities g entityNames).entities =
      g.entities.filter (fun e => decide (e.name ∉ entityNames)) ∧
    (Graph.deleteEntities g entityNames).relationships =
      g.relationships.filter (fun r =>
        decide (r.«from» ∉ entityNames) && decide (r.«to» ∉ entityNames)) ∧
    (∀ r : Relationship,
      r ∈ (Graph.deleteEntities g entityNames).relationships ↔
        r ∈ g.relationships ∧ r.«from» ∉ entityNames ∧ r.«to» ∉ entityNames) := by
  refine ⟨?_, ?_, ?_⟩
  · exact List.filter_congr (fun x _ => not_contains_decide entityNames x.name)
  · refine List.filter_congr (fun x _ => ?_)
    rw [not_contains_decide entityNames x.«from», not_contains_decide entityNames x.«to»]
  · intro r
    simp [Graph.deleteEntities, List.mem_filter]

end ClaimC5

section ClaimC9

/-- An `entity.observations.filter` deletion pass leaves the entity list
unchanged when no listed observation is present on a matching entity. -/
theorem filterObservationsFirstMatch_noop (es : List Entity) (d : DeletedObservation)
    (h : ∀ e ∈ es, e.name = d.entityName → ∀ o ∈ e.observations, o ∉ d.observations) :
    Graph.filterObservationsFirstMatch es d = es := by
  induction es with
  | nil => rfl
  | cons e rest ih =>
    simp only [Graph.filterObservationsFirstMatch]
    by_cases hn : (e.name == d.entityName) = true
    · rw [if_pos hn]
      have hobs : e.observations.filter (fun o => !(d.observations.contains o)) =
          e.observations := by
        refine List.filter_eq_self.mpr (fun o ho => ?_)
        have hno : o ∉ d.observations :=
          h e (List.mem_cons_self e rest) (by simpa using hn) o ho
        simp [hno]
      rw [hobs]
    · rw [if_neg hn]
      rw [ih (fun e' he' => h e' (List.mem_cons_of_mem e he'))]

/-- Folding deletion passes over entries that never match is the identity. -/
theorem foldl_filterObservations_noop (dels : List DeletedObservation) (es : List Entity)
    (h : ∀ d ∈ dels, ∀ e ∈ es, e.name = d.entityName →
      ∀ o ∈ e.observations, o ∉ d.observations) :
    dels.foldl Graph.filterObservationsFirstMatch es = es := by
  induction dels with
  | nil => rfl
  | cons d rest ih =>
    rw [List.foldl_cons,
      filterObservationsFirstMatch_noop es d (h d (List.mem_cons_self d rest)),
      ih (fun d' hd' => h d' (List.mem_cons_of_mem d hd'))]

/-- The boolean triple test of `deleteRelationships` decides triple
equality. -/
theorem relMatchDelete_iff (r dr : Relationship) :
    (r.«from» == dr.«from» && r.«to» == dr.«to» &&
      dr.relationshipType == r.relationshipType) = true ↔ relTriple r = relTriple dr := by
  simp only [Bool.and_eq_true, beq_iff_eq, relTriple, Prod.mk.injEq]
  constructor
  · rintro ⟨⟨h1, h2⟩, h3⟩
    exact ⟨h1, h2, h3.symm⟩
  · rintro ⟨h1, h2, h3⟩
    exact ⟨⟨h1, h2⟩, h3.symm⟩

/-- C9 (amended): `deleteObservations`, `deleteRelationships` and `openNodes`
treat references to non-existent entities, observations, or relationships
as valid inputs with no effect; `deleteEntities` likewise removes nothing
when the listed names match no entity and occur as no relationship
endpoint (all four operations are total functions, so no error is ever
raised).  A listed name of `deleteEntities` that matches no entity but is
an endpoint of a dangling stored relationship still removes that
relationship — the unamended claim fails there. -/
theorem silent_noop_operations (g : KnowledgeGraph) :
    (∀ entityNames : List String,
      (∀ n ∈ entityNames, (∀ e ∈ g.entities, e.name ≠ n) ∧
        (∀ r ∈ g.relationships, r.«from» ≠ n ∧ r.«to» ≠ n)) →
      Graph.deleteEntities g entityNames = g) ∧
    (∀ deletions : List DeletedObservation,
      (∀ d ∈ deletions, ∀ e ∈ g.entities, e.name = d.entityName →
        ∀ o ∈ e.observations, o ∉ d.observations) →
      Graph.deleteObservations g deletions = g) ∧
    (∀ dels : List Relationship,
      (∀ dr ∈ dels, ∀ r ∈ g.relationships, relTriple r ≠ relTriple dr) →
      Graph.deleteRelationships g dels = g) ∧
    (∀ names extra : List String,
      (∀ n ∈ extra, ∀ e ∈ g.entities, e.name ≠ n) →
      Graph.openNodes g (names ++ extra) = Graph.openNodes g names) := by
  obtain ⟨es, rs⟩ := g
  refine ⟨?_, ?_, ?_, ?_⟩
  · intro entityNames h
    simp only [Graph.deleteEntities, KnowledgeGraph.mk.injEq]
    constructor
    · refine List.filter_eq_self.mpr (fun e he => ?_)
      have : e.name ∉ entityNames := fun hmem => (h _ hmem).1 e he rfl
      simp [this]
    · refine List.filter_eq_self.mpr (fun r hr => ?_)
      have h1 : r.«from» ∉ entityNames := fun hmem => ((h _ hmem).2 r hr).1 rfl
      have h2 : r.«to» ∉ entityNames := fun hmem => ((h _ hmem).2 r hr).2 rfl
      simp [h1, h2]
  · intro deletions h
    simp only [Graph.deleteObservations]
    rw [foldl_filterObservations_noop deletions es (fun d hd e he => h d hd e he)]
  · intro dels h
    simp only [Graph.deleteRelationships]
    have : rs.filter (fun r => !(dels.any (fun dr =>
        r.«from» == dr.«from» && r.«to» == dr.«to» &&
        dr.relationshipType == r.relationshipType))) = rs := by
      refine List.filter_eq_self.mpr (fun r hr => ?_)
      have hfalse : (dels.any (fun dr =>
          r.«from» == dr.«from» && r.«to» == dr.«to» &&
          dr.relationshipType == r.relationshipType)) = false := by
        refine List.any_eq_false.mpr (fun dr hdr => ?_)
        intro hc
        exact h dr hdr r hr ((relMatchDelete_iff r dr).mp hc)
      rw [hfalse]
      rfl
    rw [this]
  · intro names extra h
    have hent : es.filter (fun e => (names ++ extra).contains e.name) =
        es.filter (fun e => names.contains e.name) := by
      refine List.filter_congr (fun e he => ?_)
      by_cases hm : e.name ∈ names
      · have h1 : (names ++ extra).contains e.name = true := by
          simp [List.mem_append, hm]
        have h2 : names.contains e.name = true := by simp [hm]
        rw [h1, h2]
      · have hx : e.name ∉ extra := fun hmem => h _ hmem e he rfl
        have h1 : (names ++ extra).contains e.name = false := by
          simp [List.mem_append, hm, hx]
        have h2 : names.contains e.name = false := by simp [hm]
        rw [h1, h2]
    simp only [Graph.openNodes, Graph.filterGraph]
    rw [hent]

/-- C9 counterexample: deleting the name `"B"`, which matches no entity,
nevertheless removes the dangling stored relationship `A → B`, so the
graph is not left unaffected by that non-existent-entity reference. -/
theorem silent_noop_counterexample :
    (∀ e ∈ ({ entities := [{ name := "A", entityType := "T", observations := [] }],
              relationships := [{ «from» := "A", «to» := "B", relationshipType := "r" }] } :
        KnowledgeGraph).entities, e.name ≠ "B") ∧
    Graph.deleteEntities
      { entities := [{ name := "A", entityType := "T", observations := [] }],
        relationships := [{ «from» := "A", «to» := "B", relationshipType := "r" }] }
      ["B"] ≠
      { entities := [{ name := "A", entityType := "T", observations := [] }],
        relationships := [{ «from» := "A", «to» := "B", relationshipType := "r" }] } := by
  constructor
  · decide
  · decide

end ClaimC9

section ClaimC10

/-- The empty needle is found in every haystack (JavaScript
`s.includes("")` is always `true`). -/
theorem jsIncludes_nil (s : List Char) : Graph.jsIncludes s [] = true := by
  cases s <;> simp [Graph.jsIncludes, List.isPrefixOf]

/-- Every entity matches the lowercased empty query. -/
theorem searchMatches_empty_query (e : Entity) :
    Graph.searchMatches e (Graph.jsToLowerCase "") = true := by
  simp [Graph.searchMatches, Graph.jsIncludesStr, Graph.jsToLowerCase, jsIncludes_nil]

/-- C10: searching with the empty query selects every stored entity, so the
result keeps all entities in stored order and exactly the relationships
with at least one endpoint naming a stored entity; it equals `readGraph`
precisely when every stored relationship has such an endpoint, and silently
drops relationships whose endpoints are both dangling names. -/
theorem searchNodes_empty_eq_readGraph (g : KnowledgeGraph) :
    (Graph.searchNodes g "").entities = g.entities ∧
    (Graph.searchNodes g "").relationships =
      g.relationships.filter (fun r =>
        ((g.entities.map (fun e => e.name)).contains r.«from» ||
         (g.entities.map (fun e => e.name)).contains r.«to»)) ∧
    (Graph.searchNodes g "" = Graph.readGraph g ↔
      ∀ r ∈ g.relationships,
        (∃ e ∈ g.entities, e.name = r.«from») ∨ (∃ e ∈ g.entities, e.name = r.«to»)) ∧
    (∀ r ∈ g.relationships,
      (∀ e ∈ g.entities, e.name ≠ r.«from» ∧ e.name ≠ r.«to») →
      r ∉ (Graph.searchNodes g "").relationships) := by
  obtain ⟨es, rs⟩ := g
  have hfilter : es.filter (fun e => Graph.searchMatches e (Graph.jsToLowerCase "")) = es :=
    List.filter_eq_self.mpr (fun e _ => searchMatches_empty_query e)
  have hsearch : Graph.searchNodes ⟨es, rs⟩ "" =
      { entities := es,
        relationships := rs.filter (fun r =>
          ((es.map (fun e => e.name)).contains r.«from» ||
           (es.map (fun e => e.name)).contains r.«to»)) } := by
    simp only [Graph.searchNodes, Graph.filterGraph]
    rw [hfilter]
  refine ⟨by rw [hsearch], by rw [hsearch], ?_, ?_⟩
  · rw [hsearch]
    show ({ entities := es, relationships := _ } : KnowledgeGraph) = ⟨es, rs⟩ ↔ _
    simp only [KnowledgeGraph.mk.injEq, true_and]
    rw [List.filter_eq_self]
    constructor
    · intro h r hr
      have hc := h r hr
      simp only [Bool.or_eq_true] at hc
      rcases hc with hc | hc
      · left
        simpa [List.mem_map] using hc
      · right
        simpa [List.mem_map] using hc
    · intro h r hr
      simp only [Bool.or_eq_true]
      rcases h r hr with hc | hc
      · left
        simpa [List.mem_map] using hc
      · right
        simpa [List.mem_map] using hc
  · intro r hr hnone hmem
    rw [hsearch] at hmem
    simp only [List.mem_filter, Bool.or_eq_true] at hmem
    obtain ⟨-, hc⟩ := hmem
    rcases hc with hc | hc
    · obtain ⟨e, he, hee⟩ : ∃ e ∈ es, e.name = r.«from» := by
        simpa [List.mem_map] using hc
      exact (hnone e he).1 hee
    · obtain ⟨e, he, hee⟩ : ∃ e ∈ es, e.name = r.«to» := by
        simpa [List.mem_map] using hc
      exact (hnone e he).2 hee

end ClaimC10

section ClaimC7

/-- The character-wise model of `String.prototype.includes` decides the
contiguous-substring relation. -/
theorem jsIncludes_iff_infix (s searched : List Char) :
    Graph.jsIncludes s searched = true ↔ searched <:+: s := by
  induction s with
  | nil =>
    simp only [Graph.jsIncludes, List.isPrefixOf_iff_prefix]
    constructor
    · intro h
      exact h.isInfix
    · intro h
      rw [List.infix_nil] at h
      simp [h]
  | cons a t ih =>
    simp only [Graph.jsIncludes, Bool.or_eq_true, List.isPrefixOf_iff_prefix, ih]
    exact (List.infix_cons_iff).symm

/-- The boolean entity predicate of `searchNodes` decides the specification
predicate `entityMatchesQuery`. -/
theorem searchMatches_iff (e : Entity) (q : String) :
    Graph.searchMatches e (Graph.jsToLowerCase q) = true ↔ entityMatchesQuery e q := by
  simp only [Graph.searchMatches, Graph.jsIncludesStr, Bool.or_eq_true,
    jsIncludes_iff_infix, List.any_eq_true, entityMatchesQuery]
  tauto

/-- C7: `searchNodes` selects exactly the entities for which the lowercased
query is a substring of the lowercased name, lowercased entityType, or some
lowercased observation (in stored order), and its result holds exactly the
relationships with `from` or `to` naming a selected entity — included when
connected on either side, even if the other endpoint did not match. -/
theorem searchNodes_subgraph (g : KnowledgeGraph) (query : String) :
    (Graph.searchNodes g query).entities =
      g.entities.filter (fun e => decide (entityMatchesQuery e query)) ∧
    (∀ r : Relationship,
      r ∈ (Graph.searchNodes g query).relationships ↔
        r ∈ g.relationships ∧
          ((∃ e ∈ (Graph.searchNodes g query).entities, e.name = r.«from») ∨
           (∃ e ∈ (Graph.searchNodes g query).entities, e.name = r.«to»))) := by
  constructor
  · simp only [Graph.searchNodes, Graph.filterGraph]
    exact List.filter_congr (fun e _ => eq_decide_of_iff (searchMatches_iff e query))
  · intro r
    have hname : ∀ (l : List Entity) (a : String),
        ((l.map (fun e => e.name)).contains a = true) ↔ ∃ e ∈ l, e.name = a := by
      intro l a
      simp [List.mem_map]
    simp only [Graph.searchNodes, Graph.filterGraph, List.mem_filter,
      Bool.or_eq_true, hname]

end ClaimC7

section ClaimC6

/-- Pushing observations onto the first entity matching a name updates in
the eyes of `find?` exactly that entity, appending at the end. -/
theorem find?_pushObservationsFirstMatch (es : List Entity) (nm : String)
    (obs : List String) (ent : Entity)
    (h : es.find? (fun e => e.name == nm) = some ent) :
    (Graph.pushObservationsFirstMatch es nm obs).find? (fun e => e.name == nm) =
      some { ent with observations := ent.observations ++ obs } := by
  induction es with
  | nil => simp [List.find?] at h
  | cons e rest ih =>
    by_cases hn : (e.name == nm) = true
    · rw [List.find?_cons_of_pos rest hn] at h
      have he : e = ent := by injection h
      subst he
      simp only [Graph.pushObservationsFirstMatch, if_pos hn]
      exact List.find?_cons_of_pos _ hn
    · rw [List.find?_cons_of_neg rest hn] at h
      simp only [Graph.pushObservationsFirstMatch, if_neg hn]
      rw [@List.find?_cons_of_neg Entity (fun x => x.name == nm) e
        (Graph.pushObservationsFirstMatch rest nm obs) hn]
      exact ih h

/-- C6: for an entry whose entity exists, exactly the contents not already
present (exact, case-sensitive match) are appended, the entity ends with
its existing observations followed by the newly added ones in input order,
and the returned `addedObservations` are exactly the appended strings; on
an entity with observations `["obs1"]` and contents
`["obs2","obs1","obs3"]` the added observations are `["obs2","obs3"]` and
the entity ends with observations `["obs1","obs2","obs3"]`. -/
theorem addObservations_entry_correct :
    (∀ (g : KnowledgeGraph) (o : Observation) (ent : Entity),
      g.entities.find? (fun e => e.name == o.entityName) = some ent →
      ∃ g' : KnowledgeGraph,
        Graph.addObservationsStep g o =
          Except.ok
            ({ entityName := o.entityName,
               addedObservations :=
                 o.contents.filter (fun c => decide (c ∉ ent.observations)) }, g') ∧
        g'.entities.find? (fun e => e.name == o.entityName) =
          some { ent with observations :=
            ent.observations ++
              o.contents.filter (fun c => decide (c ∉ ent.observations)) } ∧
        g'.relationships = g.relationships) ∧
    Graph.addObservations
      { entities := [{ name := "E", entityType := "T", observations := ["obs1"] }],
        relationships := [] }
      [{ entityName := "E", contents := ["obs2", "obs1", "obs3"] }] =
      (Except.ok [{ entityName := "E", addedObservations := ["obs2", "obs3"] }],
       { entities :=
           [{ name := "E", entityType := "T", observations := ["obs1", "obs2", "obs3"] }],
         relationships := [] }) := by
  constructor
  · intro g o ent h
    have hfc : o.contents.filter (fun content => !(ent.observations.contains content)) =
        o.contents.filter (fun c => decide (c ∉ ent.observations)) :=
      List.filter_congr (fun c _ => not_contains_decide ent.observations c)
    refine ⟨{ g with entities := (Graph.pushObservationsFirstMatch g.entities o.entityName
        (o.contents.filter (fun c => decide (c ∉ ent.observations)))) }, ?_, ?_, rfl⟩
    · simp only [Graph.addObservationsStep, h, hfc]
    · exact find?_pushObservationsFirstMatch g.entities o.entityName _ ent h
  · rfl

end ClaimC6

section ClaimC1

/-- Pushing observations never changes the list of entity names. -/
theorem pushObservationsFirstMatch_names (es : List Entity) (nm : String)
    (obs : List String) :
    (Graph.pushObservationsFirstMatch es nm obs).map (fun e => e.name) =
      es.map (fun e => e.name) := by
  induction es with
  | nil => rfl
  | cons e rest ih =>
    simp only [Graph.pushObservationsFirstMatch]
    by_cases hn : (e.name == nm) = true
    · rw [if_pos hn]
      simp
    · rw [if_neg hn]
      simp [ih]

/-- A successful `addObservations` iteration preserves the entity names and
the relationships of the in-memory graph. -/
theorem addObservationsStep_preserves (g : KnowledgeGraph) (o : Observation)
    (r : AddedObservationResult) (g' : KnowledgeGraph)
    (h : Graph.addObservationsStep g o = Except.ok (r, g')) :
    g'.entities.map (fun e => e.name) = g.entities.map (fun e => e.name) ∧
    g'.relationships = g.relationships := by
  unfold Graph.addObservationsStep at h
  cases hf : g.entities.find? (fun e => e.name == o.entityName) with
  | none =>
    rw [hf] at h
    cases h
  | some ent =>
    rw [hf] at h
    simp only [Except.ok.injEq, Prod.mk.injEq] at h
    obtain ⟨-, h2⟩ := h
    subst h2
    exact ⟨pushObservationsFirstMatch_names _ _ _, rfl⟩

/-- The `addObservations` loop throws as soon as some entry names an entity
absent from the (name-stable) in-memory graph. -/
theorem addObservationsLoop_isOk_false (observations : List Observation) :
    ∀ g : KnowledgeGraph,
      (∃ o ∈ observations, ∀ e ∈ g.entities, e.name ≠ o.entityName) →
      (Graph.addObservationsLoop g observations).isOk = false := by
  induction observations with
  | nil =>
    intro g h
    obtain ⟨o, ho, -⟩ := h
    cases ho
  | cons o rest ih =>
    intro g h
    simp only [Graph.addObservationsLoop]
    cases hs : Graph.addObservationsStep g o with
    | error e => rfl
    | ok p =>
      obtain ⟨r, g'⟩ := p
      obtain ⟨o₀, ho₀, hmiss⟩ := h
      rcases List.mem_cons.mp ho₀ with rfl | ho₀rest
      · exfalso
        unfold Graph.addObservationsStep at hs
        cases hf : g.entities.find? (fun e => e.name == o₀.entityName) with
        | none =>
          rw [hf] at hs
          cases hs
        | some ent =>
          have hmem := List.mem_of_find?_eq_some hf
          have hp := List.find?_some hf
          exact hmiss ent hmem (by simpa using hp)
      · have hpres := addObservationsStep_preserves g o r g' hs
        have hmiss' : ∀ e ∈ g'.entities, e.name ≠ o₀.entityName := by
          intro e he
          have hm : e.name ∈ g'.entities.map (fun e => e.name) :=
            List.mem_map_of_mem _ he
          rw [hpres.1] at hm
          obtain ⟨e₂, he₂, hname⟩ := List.mem_map.mp hm
          rw [← hname]
          exact hmiss e₂ he₂
        have hrec := ih g' ⟨o₀, ho₀rest, hmiss'⟩
        cases hl : Graph.addObservationsLoop g' rest with
        | error e => simp [hl, Except.isOk, Except.toBool]
        | ok v =>
          rw [hl] at hrec
          simp [Except.isOk, Except.toBool] at hrec

/-- C1 (amended): when some entry of the batch names an entity not present
in the loaded graph, `addObservations` fails with an entity-not-found error
and nothing is persisted to the store — the throw happens during the
in-memory iteration, before `_withGraphPersistence` reaches `saveGraph`,
so the in-place additions of earlier entries are discarded rather than
saved. -/
theorem addObservations_missing_entity (g : KnowledgeGraph)
    (observations : List Observation)
    (h : ∃ o ∈ observations, ∀ e ∈ g.entities, e.name ≠ o.entityName) :
    (Graph.addObservations g observations).1.isOk = false ∧
    (Graph.addObservations g observations).2 = g := by
  have herr := addObservationsLoop_isOk_false observations g h
  simp only [Graph.addObservations, Graph.withGraphPersistence]
  cases hl : Graph.addObservationsLoop g observations with
  | error e => exact ⟨rfl, rfl⟩
  | ok v =>
    rw [hl] at herr
    simp [Except.isOk, Except.toBool] at herr

/-- C1 witness: on a store holding only entity `A`, a batch whose second
entry targets the missing entity `B` fails and leaves the store as it
was. -/
theorem addObservations_missing_entity_witness :
    (Graph.addObservations
        { entities := [{ name := "A", entityType := "T", observations := [] }],
          relationships := [] }
        [{ entityName := "A", contents := ["x"] },
         { entityName := "B", contents := ["y"] }]).1.isOk = false ∧
    (Graph.addObservations
        { entities := [{ name := "A", entityType := "T", observations := [] }],
          relationships := [] }
        [{ entityName := "A", contents := ["x"] },
         { entityName := "B", contents := ["y"] }]).2 =
      { entities := [{ name := "A", entityType := "T", observations := [] }],
        relationships := [] } :=
  addObservations_missing_entity _ _ (by decide)

/-- C1 counterexample: the original claim asserts that the addition `"x"`
performed by the first entry is persisted to the store when the second
entry fails; in fact the call fails and the persisted graph is exactly the
original one, with entity `A` still holding no observations. -/
theorem addObservations_no_partial_persistence :
    (Graph.addObservations
        { entities := [{ name := "A", entityType := "T", observations := [] }],
          relationships := [] }
        [{ entityName := "A", contents := ["x"] },
         { entityName := "B", contents := ["y"] }]).1.isOk = false ∧
    (Graph.addObservations
        { entities := [{ name := "A", entityType := "T", observations := [] }],
          relationships := [] }
        [{ entityName := "A", contents := ["x"] },
         { entityName := "B", contents := ["y"] }]).2.entities =
      [{ name := "A", entityType := "T", observations := [] }] := by
  constructor
  · rfl
  · rfl

end ClaimC1

section ClaimC3

/-- Filtering observations never changes the list of entity names. -/
theorem filterObservationsFirstMatch_names (es : List Entity) (d : DeletedObservation) :
    (Graph.filterObservationsFirstMatch es d).map (fun e => e.name) =
      es.map (fun e => e.name) := by
  induction es with
  | nil => rfl
  | cons e rest ih =>
    simp only [Graph.filterObservationsFirstMatch]
    by_cases hn : (e.name == d.entityName) = true
    · rw [if_pos hn]
      simp
    · rw [if_neg hn]
      simp [ih]

/-- Folding observation-deletion passes never changes the entity names. -/
theorem foldl_filterObservations_names (dels : List DeletedObservation) (es : List Entity) :
    (dels.foldl Graph.filterObservationsFirstMatch es).map (fun e => e.name) =
      es.map (fun e => e.name) := by
  induction dels generalizing es with
  | nil => rfl
  | cons d rest ih =>
    rw [List.foldl_cons, ih (Graph.filterObservationsFirstMatch es d),
      filterObservationsFirstMatch_names es d]

/-- A successful `addObservations` loop preserves the entity names and the
relationships of the in-memory graph. -/
theorem addObservationsLoop_preserves (observations : List Observation) :
    ∀ (g : KnowledgeGraph) (rs : List AddedObservationResult) (g' : KnowledgeGraph),
      Graph.addObservationsLoop g observations = Except.ok (rs, g') →
      g'.entities.map (fun e => e.name) = g.entities.map (fun e => e.name) ∧
      g'.relationships = g.relationships := by
  induction observations with
  | nil =>
    intro g rs g' h
    simp only [Graph.addObservationsLoop, Except.ok.injEq, Prod.mk.injEq] at h
    obtain ⟨-, rfl⟩ := h
    exact ⟨rfl, rfl⟩
  | cons o rest ih =>
    intro g rs g' h
    simp only [Graph.addObservationsLoop] at h
    split at h
    · cases h
    · rename_i r gmid hs
      split at h
      · cases h
      · rename_i rs2 gfin hl
        simp only [Except.ok.injEq, Prod.mk.injEq] at h
        obtain ⟨-, rfl⟩ := h
        have h1 := addObservationsStep_preserves g o r gmid hs
        have h2 := ih gmid rs2 gfin hl
        exact ⟨h2.1.trans h1.1, h2.2.trans h1.2⟩

/-- The stored graph after any `addObservations` call keeps the entity
names and the relationships of the loaded graph. -/
theorem addObservations_preserves (g : KnowledgeGraph) (observations : List Observation) :
    (Graph.addObservations g observations).2.entities.map (fun e => e.name) =
      g.entities.map (fun e => e.name) ∧
    (Graph.addObservations g observations).2.relationships = g.relationships := by
  simp only [Graph.addObservations, Graph.withGraphPersistence]
  cases hl : Graph.addObservationsLoop g observations with
  | error e => exact ⟨rfl, rfl⟩
  | ok v =>
    obtain ⟨rs, g'⟩ := v
    exact addObservationsLoop_preserves observations g rs g' hl

/-- The boolean triple test of `createRelationships` decides triple
equality. -/
theorem relMatchCreate_iff (ex r : Relationship) :
    (ex.«from» == r.«from» && ex.«to» == r.«to» &&
      ex.relationshipType == r.relationshipType) = true ↔ relTriple ex = relTriple r := by
  simp only [Bool.and_eq_true, beq_iff_eq, relTriple, Prod.mk.injEq]
  tauto

/-- C3 (amended): starting from a graph satisfying both data-model
invariants, every engine operation yields a stored graph that still
satisfies them, provided the `createEntities` batch has pairwise-distinct
names and the `createRelationships` batch has pairwise-distinct triples
(the create operations deduplicate only against existing state, so a batch
that repeats a new name or triple breaks the corresponding invariant). -/
theorem engine_preserves_invariants (g : KnowledgeGraph) (hg : GraphInvariants g) :
    (∀ es : List Entity, (es.map (fun e => e.name)).Nodup →
      GraphInvariants (Graph.createEntities g es).2) ∧
    (∀ rs : List Relationship, (rs.map relTriple).Nodup →
      GraphInvariants (Graph.createRelationships g rs).2) ∧
    (∀ observations : List Observation,
      GraphInvariants (Graph.addObservations g observations).2) ∧
    (∀ names : List String, GraphInvariants (Graph.deleteEntities g names)) ∧
    (∀ dels : List DeletedObservation, GraphInvariants (Graph.deleteObservations g dels)) ∧
    (∀ rels : List Relationship, GraphInvariants (Graph.deleteRelationships g rels)) := by
  obtain ⟨hN, hT⟩ := hg
  have hN' : (g.entities.map (fun e => e.name)).Nodup := hN
  have hT' : (g.relationships.map relTriple).Nodup := hT
  refine ⟨?_, ?_, ?_, ?_, ?_, ?_⟩
  · intro es hes
    refine ⟨?_, hT⟩
    unfold UniqueEntityNames Graph.createEntities
    simp only [List.map_append]
    rw [List.nodup_append]
    refine ⟨hN', ((List.filter_sublist es).map (fun e => e.name)).nodup hes, ?_⟩
    intro a ha hb
    obtain ⟨ex, hex, hexname⟩ := List.mem_map.mp ha
    obtain ⟨e, he, hename⟩ := List.mem_map.mp hb
    have hemem := List.mem_filter.mp he
    have hany : (g.entities.any (fun x => x.name == e.name)) = false := by
      simpa using hemem.2
    refine List.any_eq_false.mp hany ex hex ?_
    simp [hexname, hename]
  · intro rs hrs
    refine ⟨hN, ?_⟩
    unfold UniqueRelationshipTriples Graph.createRelationships
    simp only [List.map_append]
    rw [List.nodup_append]
    refine ⟨hT', ((List.filter_sublist rs).map relTriple).nodup hrs, ?_⟩
    intro a ha hb
    obtain ⟨ex, hex, hextr⟩ := List.mem_map.mp ha
    obtain ⟨r, hr, hrtr⟩ := List.mem_map.mp hb
    have hrmem := List.mem_filter.mp hr
    have hany : (g.relationships.any (fun x =>
        x.«from» == r.«from» && x.«to» == r.«to» &&
        x.relationshipType == r.relationshipType)) = false := by
      simpa using hrmem.2
    refine List.any_eq_false.mp hany ex hex ?_
    rw [relMatchCreate_iff, hextr, hrtr]
  · intro observations
    have hp := addObservations_preserves g observations
    constructor
    · unfold UniqueEntityNames
      rw [hp.1]
      exact hN'
    · unfold UniqueRelationshipTriples
      rw [hp.2]
      exact hT
  · intro names
    constructor
    · unfold UniqueEntityNames Graph.deleteEntities
      exact ((List.filter_sublist g.entities).map (fun e => e.name)).nodup hN'
    · unfold UniqueRelationshipTriples Graph.deleteEntities
      exact ((List.filter_sublist g.relationships).map relTriple).nodup hT'
  · intro dels
    constructor
    · unfold UniqueEntityNames Graph.deleteObservations
      rw [foldl_filterObservations_names dels g.entities]
      exact hN'
    · exact hT
  · intro rels
    constructor
    · exact hN
    · unfold UniqueRelationshipTriples Graph.deleteRelationships
      exact ((List.filter_sublist g.relationships).map relTriple).nodup hT'

/-- C3 counterexample: the empty graph satisfies both invariants, yet a
`createEntities` batch holding the same new name twice appends it twice and
breaks name uniqueness — the unamended claim fails for this batch. -/
theorem engine_invariants_counterexample :
    GraphInvariants { entities := [], relationships := [] } ∧
    ¬ UniqueEntityNames
        (Graph.createEntities { entities := [], relationships := [] }
          [{ name := "A", entityType := "T", observations := [] },
           { name := "A", entityType := "T", observations := [] }]).2 := by
  constructor
  · decide
  · decide

/-- C3 witness: the theorem applied to the empty graph, instantiated at a
singleton create batch and a deletion list. -/
theorem engine_preserves_invariants_witness :
    GraphInvariants
      (Graph.createEntities { entities := [], relationships := [] }
        [{ name := "A", entityType := "T", observations := [] }]).2 ∧
    GraphInvariants
      (Graph.deleteEntities { entities := [], relationships := [] } ["a"]) :=
  ⟨(engine_preserves_invariants { entities := [], relationships := [] }
      (by decide)).1 [{ name := "A", entityType := "T", observations := [] }] (by decide),
   (engine_preserves_invariants { entities := [], relationships := [] }
      (by decide)).2.2.2.1 ["a"]⟩

end ClaimC3

section ClaimC8

/-- C8: loading a missing persisted file never fails and yields the empty
graph; any other file-system error on load is rethrown unmodified, and a
write failure on save propagates unmodified (the serialise-and-write body
has no error handling of its own). -/
theorem loadGraph_error_dispatch :
    FileGraphStore.loadGraph (Except.error FileGraphStore.FsError.enoent) =
      Except.ok { entities := [], relationships := [] } ∧
    (∀ message : String,
      FileGraphStore.loadGraph
          (Except.error (FileGraphStore.FsError.other message)) =
        Except.error (FileGraphStore.FsError.other message)) ∧
    (∀ (writeFile : List Char → Except FileGraphStore.FsError Unit)
        (g : KnowledgeGraph) (e : FileGraphStore.FsError),
      writeFile (FileGraphStore.saveGraphContent g) = Except.error e →
      FileGraphStore.saveGraph writeFile g = Except.error e) :=
  ⟨rfl, fun _ => rfl, fun _ _ _ h => h⟩

/-- C8 witness: a read error other than `ENOENT` comes back unchanged, and
a failing write primitive makes `saveGraph` fail with the same error. -/
theorem loadGraph_error_dispatch_witness :
    FileGraphStore.loadGraph
        (Except.error (FileGraphStore.FsError.other "EACCES")) =
      Except.error (FileGraphStore.FsError.other "EACCES") ∧
    FileGraphStore.saveGraph
        (fun _ => Except.error (FileGraphStore.FsError.other "ENOSPC"))
        { entities := [], relationships := [] } =
      Except.error (FileGraphStore.FsError.other "ENOSPC") :=
  ⟨loadGraph_error_dispatch.2.1 "EACCES",
   loadGraph_error_dispatch.2.2
     (fun _ => Except.error (FileGraphStore.FsError.other "ENOSPC"))
     { entities := [], relationships := [] }
     (FileGraphStore.FsError.other "ENOSPC") rfl⟩

end ClaimC8

section ClaimC2

/-- Dropping a literal prefix from itself followed by anything succeeds. -/
theorem dropLit_append (lit rest : List Char) :
    FileGraphStore.dropLit lit (lit ++ rest) = some rest := by
  induction lit with
  | nil => rfl
  | cons c cs ih =>
    simp only [List.cons_append, FileGraphStore.dropLit, if_pos rfl]
    exact ih

/-- Decoding a hexadecimal digit produced by the encoder recovers its
value. -/
theorem hexVal_hexDigit : ∀ n < 16,
    FileGraphStore.hexVal (FileGraphStore.hexDigit n) = some n := by decide

set_option maxHeartbeats 2000000 in
/-- Consuming the escaped body of a string moves its characters onto the
accumulator of the string parser. -/
theorem parseStringAux_escapeList (s : List Char) : ∀ (cur rest : List Char),
    FileGraphStore.parseStringAux (FileGraphStore.escapeList s ++ '"' :: rest) cur =
      FileGraphStore.parseStringAux ('"' :: rest) (s.reverse ++ cur) := by
  induction s with
  | nil =>
    intro cur rest
    simp [FileGraphStore.escapeList]
  | cons c cs ih =>
    intro cur rest
    have hesc : FileGraphStore.escapeList (c :: cs) =
        FileGraphStore.escapeChar c ++ FileGraphStore.escapeList cs := by
      simp [FileGraphStore.escapeList]
    rw [hesc, List.append_assoc]
    have hstep : ∀ x : List Char,
        (c :: cs).reverse ++ x = cs.reverse ++ (c :: x) := by
      intro x
      simp
    by_cases h1 : c = '"'
    · subst h1
      show FileGraphStore.parseStringAux
        (FileGraphStore.escapeList cs ++ '"' :: rest) ('"' :: cur) = _
      rw [ih, hstep]
    · by_cases h2 : c = '\\'
      · subst h2
        show FileGraphStore.parseStringAux
          (FileGraphStore.escapeList cs ++ '"' :: rest) ('\\' :: cur) = _
        rw [ih, hstep]
      · by_cases h3 : c = '\x08'
        · subst h3
          show FileGraphStore.parseStringAux
            (FileGraphStore.escapeList cs ++ '"' :: rest) ('\x08' :: cur) = _
          rw [ih, hstep]
        · by_cases h4 : c = '\t'
          · subst h4
            show FileGraphStore.parseStringAux
              (FileGraphStore.escapeList cs ++ '"' :: rest) ('\t' :: cur) = _
            rw [ih, hstep]
          · by_cases h5 : c = '\n'
            · subst h5
              show FileGraphStore.parseStringAux
                (FileGraphStore.escapeList cs ++ '"' :: rest) ('\n' :: cur) = _
              rw [ih, hstep]
            · by_cases h6 : c = '\x0c'
              · subst h6
                show FileGraphStore.parseStringAux
                  (FileGraphStore.escapeList cs ++ '"' :: rest) ('\x0c' :: cur) = _
                rw [ih, hstep]
              · by_cases h7 : c = '\r'
                · subst h7
                  show FileGraphStore.parseStringAux
                    (FileGraphStore.escapeList cs ++ '"' :: rest) ('\r' :: cur) = _
                  rw [ih, hstep]
                · by_cases h8 : c.toNat < 32
                  · have hchain : FileGraphStore.escapeChar c =
                        ['\\', 'u', '0', '0',
                         FileGraphStore.hexDigit (c.toNat / 16),
                         FileGraphStore.hexDigit (c.toNat % 16)] := by
                      simp [FileGraphStore.escapeChar, h1, h2, h3, h4, h5, h6, h7, h8]
                    rw [hchain]
                    have e1 : FileGraphStore.hexVal
                        (FileGraphStore.hexDigit (c.toNat / 16)) = some (c.toNat / 16) :=
                      hexVal_hexDigit _ (by omega)
                    have e2 : FileGraphStore.hexVal
                        (FileGraphStore.hexDigit (c.toNat % 16)) = some (c.toNat % 16) :=
                      hexVal_hexDigit _ (by omega)
                    have e0 : FileGraphStore.hexVal '0' = some 0 := by decide
                    simp only [List.cons_append, FileGraphStore.parseStringAux, e0, e1, e2]
                    rw [show ([].append (FileGraphStore.escapeList cs ++ '"' :: rest) :
                        List Char) = FileGraphStore.escapeList cs ++ '"' :: rest from rfl]
                    rw [ih]
                    simp only [FileGraphStore.parseStringAux]
                    have hdm : 16 * (c.toNat / 16) + c.toNat % 16 = c.toNat := by omega
                    simp [hdm, Char.ofNat_toNat]
                  · have hchain : FileGraphStore.escapeChar c = [c] := by
                      simp [FileGraphStore.escapeChar, h1, h2, h3, h4, h5, h6, h7, h8]
                    rw [hchain]
                    have hne : FileGraphStore.parseStringAux
                        (c :: (FileGraphStore.escapeList cs ++ '"' :: rest)) cur =
                        FileGraphStore.parseStringAux
                          (FileGraphStore.escapeList cs ++ '"' :: rest) (c :: cur) := by
                      simp only [FileGraphStore.parseStringAux, h1, h2]
                      rw [if_neg h8]
                    simp only [List.cons_append, List.nil_append]
                    rw [hne, ih, hstep]

end ClaimC2

section ClaimC2b

set_option maxHeartbeats 2000000 in
/-- Consuming the escaped body of the current array element moves its
characters onto the element accumulator of the array parser. -/
theorem parseArrayAux_escapeList (s : List Char) :
    ∀ (cur rest : List Char) (acc : List String),
    FileGraphStore.parseArrayAux (FileGraphStore.escapeList s ++ '"' :: rest) cur acc =
      FileGraphStore.parseArrayAux ('"' :: rest) (s.reverse ++ cur) acc := by
  induction s with
  | nil =>
    intro cur rest acc
    simp [FileGraphStore.escapeList]
  | cons c cs ih =>
    intro cur rest acc
    have hesc : FileGraphStore.escapeList (c :: cs) =
        FileGraphStore.escapeChar c ++ FileGraphStore.escapeList cs := by
      simp [FileGraphStore.escapeList]
    rw [hesc, List.append_assoc]
    have hstep : ∀ x : List Char,
        (c :: cs).reverse ++ x = cs.reverse ++ (c :: x) := by
      intro x
      simp
    by_cases h1 : c = '"'
    · subst h1
      show FileGraphStore.parseArrayAux
        (FileGraphStore.escapeList cs ++ '"' :: rest) ('"' :: cur) acc = _
      rw [ih, hstep]
    · by_cases h2 : c = '\\'
      · subst h2
        show FileGraphStore.parseArrayAux
          (FileGraphStore.escapeList cs ++ '"' :: rest) ('\\' :: cur) acc = _
        rw [ih, hstep]
      · by_cases h3 : c = '\x08'
        · subst h3
          show FileGraphStore.parseArrayAux
            (FileGraphStore.escapeList cs ++ '"' :: rest) ('\x08' :: cur) acc = _
          rw [ih, hstep]
        · by_cases h4 : c = '\t'
          · subst h4
            show FileGraphStore.parseArrayAux
              (FileGraphStore.escapeList cs ++ '"' :: rest) ('\t' :: cur) acc = _
            rw [ih, hstep]
          · by_cases h5 : c = '\n'
            · subst h5
              show FileGraphStore.parseArrayAux
                (FileGraphStore.escapeList cs ++ '"' :: rest) ('\n' :: cur) acc = _
              rw [ih, hstep]
            · by_cases h6 : c = '\x0c'
              · subst h6
                show FileGraphStore.parseArrayAux
                  (FileGraphStore.escapeList cs ++ '"' :: rest) ('\x0c' :: cur) acc = _
                rw [ih, hstep]
              · by_cases h7 : c = '\r'
                · subst h7
                  show FileGraphStore.parseArrayAux
                    (FileGraphStore.escapeList cs ++ '"' :: rest) ('\r' :: cur) acc = _
                  rw [ih, hstep]
                · by_cases h8 : c.toNat < 32
                  · have hchain : FileGraphStore.escapeChar c =
                        ['\\', 'u', '0', '0',
                         FileGraphStore.hexDigit (c.toNat / 16),
                         FileGraphStore.hexDigit (c.toNat % 16)] := by
                      simp [FileGraphStore.escapeChar, h1, h2, h3, h4, h5, h6, h7, h8]
                    rw [hchain]
                    have e1 : FileGraphStore.hexVal
                        (FileGraphStore.hexDigit (c.toNat / 16)) = some (c.toNat / 16) :=
                      hexVal_hexDigit _ (by omega)
                    have e2 : FileGraphStore.hexVal
                        (FileGraphStore.hexDigit (c.toNat % 16)) = some (c.toNat % 16) :=
                      hexVal_hexDigit _ (by omega)
                    have e0 : FileGraphStore.hexVal '0' = some 0 := by decide
                    simp only [List.cons_append, FileGraphStore.parseArrayAux, e0, e1, e2]
                    rw [show ([].append (FileGraphStore.escapeList cs ++ '"' :: rest) :
                        List Char) = FileGraphStore.escapeList cs ++ '"' :: rest from rfl]
                    rw [ih]
                    have hdm : 16 * (c.toNat / 16) + c.toNat % 16 = c.toNat := by omega
                    simp [hdm, Char.ofNat_toNat]
                  · have hchain : FileGraphStore.escapeChar c = [c] := by
                      simp [FileGraphStore.escapeChar, h1, h2, h3, h4, h5, h6, h7, h8]
                    rw [hchain]
                    have hne : FileGraphStore.parseArrayAux
                        (c :: (FileGraphStore.escapeList cs ++ '"' :: rest)) cur acc =
                        FileGraphStore.parseArrayAux
                          (FileGraphStore.escapeList cs ++ '"' :: rest) (c :: cur) acc := by
                      simp only [FileGraphStore.parseArrayAux, h1, h2]
                      rw [if_neg h8]
                    simp only [List.cons_append, List.nil_append]
                    rw [hne, ih, hstep]

end ClaimC2b

section ClaimC2c

/-- JSON.stringify's comma-joined element list, decomposed into the first
quoted element followed by comma-prefixed quoted elements. -/
theorem joinWith_quote_decomp (ss : List String) : ∀ s : String,
    FileGraphStore.joinWith ',' ((s :: ss).map FileGraphStore.quoteJson) =
      FileGraphStore.quoteJson s ++
        (ss.map (fun x => ',' :: FileGraphStore.quoteJson x)).flatten := by
  induction ss with
  | nil =>
    intro s
    simp [FileGraphStore.joinWith]
  | cons s2 ss2 ih =>
    intro s
    simp only [List.map_cons]
    show FileGraphStore.quoteJson s ++ ',' ::
        FileGraphStore.joinWith ',' (FileGraphStore.quoteJson s2 ::
          ss2.map FileGraphStore.quoteJson) = _
    rw [show (FileGraphStore.quoteJson s2 :: ss2.map FileGraphStore.quoteJson) =
      (s2 :: ss2).map FileGraphStore.quoteJson from rfl, ih s2]
    simp

/-- Parsing the encoded remaining elements of a string array returns the
accumulated elements, the current element, and the remaining elements, in
order. -/
theorem parseArrayAux_elems (ss : List String) :
    ∀ (s : String) (cur : List Char) (acc : List String) (rest : List Char),
    FileGraphStore.parseArrayAux
        (FileGraphStore.escapeList s.data ++ '"' ::
          ((ss.map (fun x => ',' :: FileGraphStore.quoteJson x)).flatten ++ ']' :: rest))
        cur acc =
      some (acc.reverse ++ String.mk (cur.reverse ++ s.data) :: ss, rest) := by
  induction ss with
  | nil =>
    intro s cur acc rest
    rw [parseArrayAux_escapeList]
    simp [FileGraphStore.parseArrayAux]
  | cons s2 ss2 ih =>
    intro s cur acc rest
    rw [parseArrayAux_escapeList]
    simp only [List.map_cons, List.flatten_cons, FileGraphStore.quoteJson,
      List.cons_append, List.append_assoc, List.singleton_append]
    show FileGraphStore.parseArrayAux
        (FileGraphStore.escapeList s2.data ++ '"' ::
          ((ss2.map (fun x => ',' :: FileGraphStore.quoteJson x)).flatten ++ ']' :: rest))
        [] (String.mk (s.data.reverse ++ cur).reverse :: acc) = _
    rw [ih s2]
    simp

end ClaimC2c

section ClaimC2d

/-- Parsing an encoded string array recovers exactly the list, leaving the
trailing input untouched. -/
theorem parseStringArray_encode (ls : List String) (rest : List Char) :
    FileGraphStore.parseStringArray (FileGraphStore.encodeStringArray ls ++ rest) =
      some (ls, rest) := by
  cases ls with
  | nil =>
    simp [FileGraphStore.encodeStringArray, FileGraphStore.joinWith,
      FileGraphStore.parseStringArray]
  | cons s ss =>
    simp only [FileGraphStore.encodeStringArray, joinWith_quote_decomp ss s,
      FileGraphStore.quoteJson, List.cons_append, List.append_assoc,
      List.singleton_append]
    show FileGraphStore.parseArrayAux
        (FileGraphStore.escapeList s.data ++ '"' ::
          ((ss.map (fun x => ',' :: FileGraphStore.quoteJson x)).flatten ++
            (']' :: [] ++ rest))) [] [] = _
    rw [show (']' :: [] ++ rest) = ']' :: rest from rfl, parseArrayAux_elems ss s]
    simp

/-- Parsing an encoded entity line yields exactly that entity record. -/
theorem parseLine_encodeEntityLine (e : Entity) :
    FileGraphStore.parseLine (FileGraphStore.encodeEntityLine e) =
      some (FileGraphStore.LineItem.entity e) := by
  simp only [FileGraphStore.parseLine, FileGraphStore.encodeEntityLine,
    List.append_assoc, List.cons_append, dropLit_append, parseStringAux_escapeList,
    FileGraphStore.parseStringAux, parseStringArray_encode]
  simp

/-- Parsing an encoded relationship line yields exactly that relationship
record. -/
theorem parseLine_encodeRelationshipLine (r : Relationship) :
    FileGraphStore.parseLine (FileGraphStore.encodeRelationshipLine r) =
      some (FileGraphStore.LineItem.relationship r) := by
  have hmiss : FileGraphStore.dropLit FileGraphStore.entityLit1
      (FileGraphStore.encodeRelationshipLine r) = none := by
    simp [FileGraphStore.encodeRelationshipLine, FileGraphStore.entityLit1,
      FileGraphStore.relLit1, FileGraphStore.dropLit]
  unfold FileGraphStore.parseLine
  rw [hmiss]
  simp only [FileGraphStore.encodeRelationshipLine, List.append_assoc, List.cons_append,
    dropLit_append, parseStringAux_escapeList, FileGraphStore.parseStringAux]
  simp

end ClaimC2d

section ClaimC2e

/-- Splitting a newline-free string yields that single line. -/
theorem splitOnNewline_no_newline (l : List Char) (h : '\n' ∉ l) :
    FileGraphStore.splitOnNewline l = [l] := by
  induction l with
  | nil => rfl
  | cons c rest ih =>
    simp only [FileGraphStore.splitOnNewline]
    rw [if_neg (fun hc => h (List.mem_cons.mpr (Or.inl hc.symm)))]
    rw [ih (fun hm => h (List.mem_cons_of_mem c hm))]

/-- Splitting after a newline-free first line peels it off. -/
theorem splitOnNewline_append (l t : List Char) (h : '\n' ∉ l) :
    FileGraphStore.splitOnNewline (l ++ '\n' :: t) =
      l :: FileGraphStore.splitOnNewline t := by
  induction l with
  | nil => simp [FileGraphStore.splitOnNewline]
  | cons c rest ih =>
    simp only [List.cons_append, FileGraphStore.splitOnNewline, List.append_eq]
    rw [if_neg (fun hc => h (List.mem_cons.mpr (Or.inl hc.symm)))]
    rw [ih (fun hm => h (List.mem_cons_of_mem c hm))]

/-- Splitting the newline-joined lines recovers them when no line contains
a newline. -/
theorem splitOnNewline_joinWith (ls : List (List Char)) : ∀ l : List Char,
    (∀ x ∈ l :: ls, '\n' ∉ x) →
    FileGraphStore.splitOnNewline (FileGraphStore.joinWith '\n' (l :: ls)) = l :: ls := by
  induction ls with
  | nil =>
    intro l h
    exact splitOnNewline_no_newline l (h l (List.mem_cons_self l []))
  | cons l2 ls2 ih =>
    intro l h
    show FileGraphStore.splitOnNewline
      (l ++ '\n' :: FileGraphStore.joinWith '\n' (l2 :: ls2)) = _
    rw [splitOnNewline_append _ _ (h l (List.mem_cons_self l _)),
      ih l2 (fun x hx => h x (List.mem_cons_of_mem l hx))]

/-- A line containing a non-whitespace character does not trim to the empty
string. -/
theorem jsTrim_isEmpty_false (l : List Char) (c : Char) (hc : c ∈ l)
    (hw : FileGraphStore.jsIsWhitespaceChar c = false) :
    (FileGraphStore.jsTrim l).isEmpty = false := by
  have hdw : ∀ m : List Char, c ∈ m →
      m.dropWhile FileGraphStore.jsIsWhitespaceChar ≠ [] := by
    intro m hm
    have hsplit := List.takeWhile_append_dropWhile FileGraphStore.jsIsWhitespaceChar m
    intro hnil
    rw [hnil, List.append_nil] at hsplit
    rw [← hsplit] at hm
    exact absurd (List.mem_takeWhile_imp hm) (by simp [hw])
  have h1 : c ∈ l.dropWhile FileGraphStore.jsIsWhitespaceChar := by
    have hsplit := List.takeWhile_append_dropWhile FileGraphStore.jsIsWhitespaceChar l
    rcases List.mem_append.mp (by rw [hsplit]; exact hc) with hin | hin
    · exact absurd (List.mem_takeWhile_imp hin) (by simp [hw])
    · exact hin
  have h2 : c ∈ (l.dropWhile FileGraphStore.jsIsWhitespaceChar).reverse :=
    List.mem_reverse.mpr h1
  rw [List.isEmpty_eq_false]
  unfold FileGraphStore.jsTrim
  rw [Ne, List.reverse_eq_nil_iff]
  exact hdw _ h2

/-- A character of the separator-joined lines is the separator or belongs
to one of the lines. -/
theorem mem_joinWith (sep : Char) (ls : List (List Char)) (c : Char) :
    c ∈ FileGraphStore.joinWith sep ls → c = sep ∨ ∃ l ∈ ls, c ∈ l := by
  induction ls with
  | nil =>
    intro hc
    cases hc
  | cons l ls2 ih =>
    cases ls2 with
    | nil =>
      intro hc
      exact Or.inr ⟨l, List.mem_cons_self l [], hc⟩
    | cons l2 ls3 =>
      intro hc
      rcases List.mem_append.mp hc with hin | hin
      · exact Or.inr ⟨l, List.mem_cons_self l _, hin⟩
      · rcases List.mem_cons.mp hin with rfl | hin2
        · exact Or.inl rfl
        · rcases ih hin2 with h | ⟨l3, hl3, hcl3⟩
          · exact Or.inl h
          · exact Or.inr ⟨l3, List.mem_cons_of_mem l hl3, hcl3⟩

end ClaimC2e

section ClaimC2f

/-- The escape of a single character never contains a newline. -/
theorem newline_notMem_escapeChar (c : Char) : '\n' ∉ FileGraphStore.escapeChar c := by
  unfold FileGraphStore.escapeChar
  split
  · decide
  · split
    · decide
    · split
      · decide
      · split
        · decide
        · split
          · decide
          · split
            · decide
            · split
              · decide
              · split
                · rename_i h8
                  intro hm
                  have hsmall : ∀ n < 16, '\n' ≠ FileGraphStore.hexDigit n := by decide
                  rcases List.mem_cons.mp hm with h | hm
                  · cases h
                  rcases List.mem_cons.mp hm with h | hm
                  · cases h
                  rcases List.mem_cons.mp hm with h | hm
                  · cases h
                  rcases List.mem_cons.mp hm with h | hm
                  · cases h
                  rcases List.mem_cons.mp hm with h | hm
                  · exact hsmall (c.toNat / 16) (by omega) h
                  rcases List.mem_cons.mp hm with h | hm
                  · exact hsmall (c.toNat % 16) (by omega) h
                  cases hm
                · rename_i h8
                  intro hm
                  rcases List.mem_cons.mp hm with h | hm
                  · rw [← h] at h8
                    exact h8 (by decide)
                  cases hm

/-- The escaped body of a string never contains a newline. -/
theorem newline_notMem_escapeList (s : List Char) :
    '\n' ∉ FileGraphStore.escapeList s := by
  unfold FileGraphStore.escapeList
  intro hm
  rw [List.mem_flatten] at hm
  obtain ⟨l, hl, hcl⟩ := hm
  obtain ⟨c, -, rfl⟩ := List.mem_map.mp hl
  exact newline_notMem_escapeChar c hcl

/-- An encoded string array never contains a newline. -/
theorem newline_notMem_encodeStringArray (l : List String) :
    '\n' ∉ FileGraphStore.encodeStringArray l := by
  unfold FileGraphStore.encodeStringArray
  intro hm
  rcases List.mem_cons.mp hm with h | hm
  · cases h
  rcases List.mem_append.mp hm with hin | hin
  · rcases mem_joinWith ',' _ '\n' hin with h | ⟨q, hq, hcq⟩
    · cases h
    · obtain ⟨s, -, rfl⟩ := List.mem_map.mp hq
      unfold FileGraphStore.quoteJson at hcq
      rcases List.mem_cons.mp hcq with h | hm2
      · cases h
      rcases List.mem_append.mp hm2 with hin2 | hin2
      · exact newline_notMem_escapeList s.data hin2
      · rcases List.mem_cons.mp hin2 with h | hm3
        · cases h
        cases hm3
  · rcases List.mem_cons.mp hin with h | hm2
    · cases h
    cases hm2

/-- An encoded entity line never contains a newline. -/
theorem newline_notMem_encodeEntityLine (e : Entity) :
    '\n' ∉ FileGraphStore.encodeEntityLine e := by
  unfold FileGraphStore.encodeEntityLine
  intro hm
  simp only [List.append_assoc, List.cons_append] at hm
  rcases List.mem_append.mp hm with hin | hm
  · revert hin
    decide
  rcases List.mem_append.mp hm with hin | hm
  · exact newline_notMem_escapeList e.name.data hin
  rcases List.mem_cons.mp hm with h | hm
  · cases h
  rcases List.mem_append.mp hm with hin | hm
  · revert hin
    decide
  rcases List.mem_append.mp hm with hin | hm
  · exact newline_notMem_escapeList e.entityType.data hin
  rcases List.mem_cons.mp hm with h | hm
  · cases h
  rcases List.mem_append.mp hm with hin | hm
  · revert hin
    decide
  rcases List.mem_append.mp hm with hin | hm
  · exact newline_notMem_encodeStringArray e.observations hin
  rcases List.mem_cons.mp hm with h | hm
  · cases h
  cases hm

/-- An encoded relationship line never contains a newline. -/
theorem newline_notMem_encodeRelationshipLine (r : Relationship) :
    '\n' ∉ FileGraphStore.encodeRelationshipLine r := by
  unfold FileGraphStore.encodeRelationshipLine
  intro hm
  simp only [List.append_assoc, List.cons_append] at hm
  rcases List.mem_append.mp hm with hin | hm
  · revert hin
    decide
  rcases List.mem_append.mp hm with hin | hm
  · exact newline_notMem_escapeList r.«from».data hin
  rcases List.mem_cons.mp hm with h | hm
  · cases h
  rcases List.mem_append.mp hm with hin | hm
  · revert hin
    decide
  rcases List.mem_append.mp hm with hin | hm
  · exact newline_notMem_escapeList r.«to».data hin
  rcases List.mem_cons.mp hm with h | hm
  · cases h
  rcases List.mem_append.mp hm with hin | hm
  · revert hin
    decide
  rcases List.mem_append.mp hm with hin | hm
  · exact newline_notMem_escapeList r.relationshipType.data hin
  rcases List.mem_cons.mp hm with h | hm
  · cases h
  rcases List.mem_cons.mp hm with h | hm
  · cases h
  cases hm

/-- Every encoded entity line starts with an opening brace. -/
theorem brace_mem_encodeEntityLine (e : Entity) :
    '{' ∈ FileGraphStore.encodeEntityLine e := by
  unfold FileGraphStore.encodeEntityLine
  simp only [List.append_assoc, List.cons_append]
  exact List.mem_append.mpr (Or.inl (by decide))

/-- Every encoded relationship line starts with an opening brace. -/
theorem brace_mem_encodeRelationshipLine (r : Relationship) :
    '{' ∈ FileGraphStore.encodeRelationshipLine r := by
  unfold FileGraphStore.encodeRelationshipLine
  simp only [List.append_assoc, List.cons_append]
  exact List.mem_append.mpr (Or.inl (by decide))

end ClaimC2f

section ClaimC2g

/-- Loading the encoded entity lines pushes exactly those entities, in
order. -/
theorem loadLines_entities (es : List Entity) :
    ∀ (ls : List (List Char)) (g : KnowledgeGraph),
    FileGraphStore.loadLines (es.map FileGraphStore.encodeEntityLine ++ ls) g =
      FileGraphStore.loadLines ls { g with entities := g.entities ++ es } := by
  induction es with
  | nil =>
    intro ls g
    rw [List.map_nil, List.nil_append, List.append_nil]
  | cons e es2 ih =>
    intro ls g
    simp only [List.map_cons, List.cons_append, FileGraphStore.loadLines,
      parseLine_encodeEntityLine, List.append_eq]
    rw [ih]
    simp [List.append_assoc]

/-- Loading the encoded relationship lines pushes exactly those
relationships, in order. -/
theorem loadLines_relationships (rs : List Relationship) :
    ∀ (ls : List (List Char)) (g : KnowledgeGraph),
    FileGraphStore.loadLines (rs.map FileGraphStore.encodeRelationshipLine ++ ls) g =
      FileGraphStore.loadLines ls { g with relationships := g.relationships ++ rs } := by
  induction rs with
  | nil =>
    intro ls g
    rw [List.map_nil, List.nil_append, List.append_nil]
  | cons r rs2 ih =>
    intro ls g
    simp only [List.map_cons, List.cons_append, FileGraphStore.loadLines,
      parseLine_encodeRelationshipLine, List.append_eq]
    rw [ih]
    simp [List.append_assoc]

/-- Loading the saved content of any graph reconstructs exactly that graph,
entity and relationship order included. -/
theorem loadGraphFromContent_saveGraphContent (g : KnowledgeGraph) :
    FileGraphStore.loadGraphFromContent (FileGraphStore.saveGraphContent g) = some g := by
  obtain ⟨es, rs⟩ := g
  unfold FileGraphStore.loadGraphFromContent FileGraphStore.saveGraphContent
  cases hls : es.map FileGraphStore.encodeEntityLine ++
      rs.map FileGraphStore.encodeRelationshipLine with
  | nil =>
    obtain ⟨he, hr⟩ := List.append_eq_nil.mp hls
    rw [List.map_eq_nil_iff.mp he, List.map_eq_nil_iff.mp hr]
    rfl
  | cons l ls =>
    have hmem : ∀ x ∈ l :: ls, x ∈ es.map FileGraphStore.encodeEntityLine ++
        rs.map FileGraphStore.encodeRelationshipLine := by
      intro x hx
      rw [hls]
      exact hx
    have hnl : ∀ x ∈ l :: ls, '\n' ∉ x := by
      intro x hx
      rcases List.mem_append.mp (hmem x hx) with hin | hin
      · obtain ⟨e, -, rfl⟩ := List.mem_map.mp hin
        exact newline_notMem_encodeEntityLine e
      · obtain ⟨r, -, rfl⟩ := List.mem_map.mp hin
        exact newline_notMem_encodeRelationshipLine r
    have hbrace : ∀ x ∈ l :: ls, '{' ∈ x := by
      intro x hx
      rcases List.mem_append.mp (hmem x hx) with hin | hin
      · obtain ⟨e, -, rfl⟩ := List.mem_map.mp hin
        exact brace_mem_encodeEntityLine e
      · obtain ⟨r, -, rfl⟩ := List.mem_map.mp hin
        exact brace_mem_encodeRelationshipLine r
    rw [splitOnNewline_joinWith ls l hnl]
    have hfilter : (l :: ls).filter
        (fun line => !(FileGraphStore.jsTrim line).isEmpty) = l :: ls := by
      refine List.filter_eq_self.mpr (fun x hx => ?_)
      rw [jsTrim_isEmpty_false x '{' (hbrace x hx) (by decide)]
      rfl
    rw [hfilter, ← hls, loadLines_entities,
      show List.map FileGraphStore.encodeRelationshipLine rs =
        List.map FileGraphStore.encodeRelationshipLine rs ++ [] from
          (List.append_nil _).symm,
      loadLines_relationships]
    simp [FileGraphStore.loadLines]

/-- C2: for every knowledge graph, saving it and loading it back returns a
graph deep-equal to the original, with the order of the entities sequence
and of the relationships sequence preserved. -/
theorem saveGraph_loadGraph_roundtrip (g : KnowledgeGraph) :
    FileGraphStore.loadGraph (Except.ok (FileGraphStore.saveGraphContent g)) =
      Except.ok g := by
  simp only [FileGraphStore.loadGraph, loadGraphFromContent_saveGraphContent]

end ClaimC2g

section Witnesses

/-- C4 witness: on the empty graph, a batch repeating one fresh entity
returns it twice. -/
theorem createEntities_correct_witness :
    (Graph.createEntities { entities := [], relationships := [] }
        [{ name := "A", entityType := "T", observations := [] },
         { name := "A", entityType := "T", observations := [] }]).1 =
      [{ name := "A", entityType := "T", observations := [] },
       { name := "A", entityType := "T", observations := [] }] :=
  ((createEntities_correct { entities := [], relationships := [] } []).2.2.2
    { name := "A", entityType := "T", observations := [] } (by decide)).1

/-- C5 witness: deleting the unrelated name `B` keeps the `A → C`
relationship. -/
theorem deleteEntities_correct_witness :
    ({ «from» := "A", «to» := "C", relationshipType := "r" } : Relationship) ∈
      (Graph.deleteEntities
        { entities := [],
          relationships := [{ «from» := "A", «to» := "C", relationshipType := "r" }] }
        ["B"]).relationships :=
  ((deleteEntities_correct
      { entities := [],
        relationships := [{ «from» := "A", «to» := "C", relationshipType := "r" }] }
      ["B"]).2.2
    { «from» := "A", «to» := "C", relationshipType := "r" }).mpr
    ⟨by decide, by decide, by decide⟩

/-- C6 witness: one entry on an observation-free entity appends exactly its
single content string. -/
theorem addObservations_entry_correct_witness :
    ∃ g' : KnowledgeGraph,
      Graph.addObservationsStep
          { entities := [{ name := "E", entityType := "T", observations := [] }],
            relationships := [] }
          { entityName := "E", contents := ["x"] } =
        Except.ok ({ entityName := "E", addedObservations := ["x"] }, g') ∧
      g'.entities.find? (fun e => e.name == "E") =
        some { name := "E", entityType := "T", observations := ["x"] } ∧
      g'.relationships = [] :=
  addObservations_entry_correct.1
    { entities := [{ name := "E", entityType := "T", observations := [] }],
      relationships := [] }
    { entityName := "E", contents := ["x"] }
    { name := "E", entityType := "T", observations := [] } rfl

/-- C7 witness: searching `"fruit"` selects `Apple` by its type and keeps
the `Apple → Banana` relationship although `Banana` is not stored. -/
theorem searchNodes_subgraph_witness :
    ({ «from» := "Apple", «to» := "Banana", relationshipType := "C" } : Relationship) ∈
      (Graph.searchNodes
        { entities := [{ name := "Apple", entityType := "Fruit", observations := ["Red"] }],
          relationships :=
            [{ «from» := "Apple", «to» := "Banana", relationshipType := "C" }] }
        "fruit").relationships :=
  ((searchNodes_subgraph
      { entities := [{ name := "Apple", entityType := "Fruit", observations := ["Red"] }],
        relationships :=
          [{ «from» := "Apple", «to» := "Banana", relationshipType := "C" }] }
      "fruit").2
    { «from» := "Apple", «to» := "Banana", relationshipType := "C" }).mpr
    ⟨by decide, by decide⟩

/-- C9 witness: a deletion entry naming a missing entity leaves the graph
unchanged, and unmatched names contribute nothing to `openNodes`. -/
theorem silent_noop_operations_witness :
    Graph.deleteObservations
        { entities := [{ name := "A", entityType := "T", observations := ["o"] }],
          relationships := [] }
        [{ entityName := "Ghost", observations := ["x"] }] =
      { entities := [{ name := "A", entityType := "T", observations := ["o"] }],
        relationships := [] } ∧
    Graph.openNodes
        { entities := [{ name := "A", entityType := "T", observations := ["o"] }],
          relationships := [] }
        (["A"] ++ ["Ghost"]) =
      Graph.openNodes
        { entities := [{ name := "A", entityType := "T", observations := ["o"] }],
          relationships := [] }
        ["A"] :=
  ⟨(silent_noop_operations
      { entities := [{ name := "A", entityType := "T", observations := ["o"] }],
        relationships := [] }).2.1
      [{ entityName := "Ghost", observations := ["x"] }] (by decide),
   (silent_noop_operations
      { entities := [{ name := "A", entityType := "T", observations := ["o"] }],
        relationships := [] }).2.2.2
      ["A"] ["Ghost"] (by decide)⟩

/-- C10 witness: with a single dangling-free relationship, the empty-query
search equals the full read. -/
theorem searchNodes_empty_eq_readGraph_witness :
    Graph.searchNodes
        { entities := [{ name := "A", entityType := "T", observations := [] }],
          relationships := [{ «from» := "A", «to» := "B", relationshipType := "r" }] }
        "" =
      Graph.readGraph
        { entities := [{ name := "A", entityType := "T", observations := [] }],
          relationships := [{ «from» := "A", «to» := "B", relationshipType := "r" }] } :=
  (searchNodes_empty_eq_readGraph
      { entities := [{ name := "A", entityType := "T", observations := [] }],
        relationships :=
          [{ «from» := "A", «to» := "B", relationshipType := "r" }] }).2.2.1.mpr
    (by decide)

end Witnesses
